import Mathlib

/-!
Verification development for the streamer configuration module
(`lambda/function/config.py`).

The module has two pieces:

* `get_s3_object`: issues an S3 `select_object_content` request, retries
  the whole request whenever the store reports `NoSuchKey`, re-raises any
  other `ClientError`, accumulates the `Records` payload bytes of the
  streamed response events until an `End` event is seen, and finally
  returns the accumulated bytes decoded as UTF-8.

* `ConfigManager`: parses the fetched document (a JSON object mapping
  version labels `_<N>` to arrays of raw project records), selects the
  array under the numerically largest version, decodes each record
  (enum fields by name lookup), derives a pooled filter configuration,
  and offers slug lookup, tracking-info extraction and JSON serialization.

The embedding below translates these functions into executable Lean
definitions; stateful loops become explicit recursion, Python exceptions
become `Except` / explicit error results.
-/

deriving instance DecidableEq for Except

namespace Streamer

/-- Python-level exceptions raised by the modelled code paths. -/
inductive PyError where
  /-- a `botocore.exceptions.ClientError` re-raised by `get_s3_object` -/
  | clientError (code : String)
  /-- any exception that is not a `ClientError` (propagates uncaught) -/
  | otherException (name : String)
  /-- A `KeyError`: dict lookup failure, or `Enum[name]` lookup failure -/
  | keyError (key : String)
  /-- A `ValueError`: `int()` parse failure, or `max()` of an empty sequence -/
  | valueError (msg : String)
  /-- A `TypeError`: `json.dump` hit a value it cannot serialize -/
  | typeError (msg : String)
  deriving DecidableEq

/-! ### The object fetcher: `get_s3_object` -/

/-- One streamed event of the response `Payload`.  The source tests the
keys `End` and `Records` independently (`if 'End' in event`,
`if 'Records' in event`), so the model keeps both components.  Payload
bytes are modelled as `List Nat` (each element one byte). -/
structure SelectEvent where
  end_of_stream : Bool
  records : Option (List Nat)
  deriving DecidableEq

/-- The outcome of one `select_object_content` call against the store. -/
inductive S3Outcome where
  /-- the call raised `ClientError` with this error code -/
  | clientError (code : String)
  /-- the call raised an exception that is not a `ClientError` -/
  | otherException (name : String)
  /-- the call returned a response whose `Payload` is this event stream -/
  | success (events : List SelectEvent)
  deriving DecidableEq

/-- Result of running `get_s3_object` against a finite trace of
per-request outcomes. -/
inductive FetchResult where
  /-- the while loop finished and `records.decode('utf-8')` returned this text -/
  | ok (text : String)
  /-- an exception propagated to the caller -/
  | raised (e : PyError)
  /-- the loop would issue another request beyond the supplied trace
      (the Python loop would keep running) -/
  | outOfOutcomes
  deriving DecidableEq

/-- The body of `for event in response['Payload']`: threads the `repeat`
flag and the `records` byte accumulator through the events, setting the
flag to `False` on an `End` event and appending `Records` payload bytes. -/
def processEvents : List SelectEvent → Bool → List Nat → Bool × List Nat
  | [], rep, records => (rep, records)
  | e :: es, rep, records =>
      processEvents es (if e.end_of_stream then false else rep)
        (match e.records with
         | some payload => records ++ payload
         | none => records)

/-! #### UTF-8 decoding

`get_s3_object` ends with `records.decode('utf-8')`.  We model Python's
strict UTF-8 decoder directly: `none` models a `UnicodeDecodeError`. -/

/-- Is `b` a UTF-8 continuation byte (`0x80..0xBF`)? -/
def isCont (b : Nat) : Bool := 0x80 ≤ b && b < 0xC0

/-- Strict UTF-8 decoding of a byte sequence into characters; rejects
stray continuation bytes, overlong encodings, surrogate code points and
code points above `0x10FFFF`, as Python's `bytes.decode('utf-8')` does. -/
def utf8DecodeChars : List Nat → Option (List Char)
  | [] => some []
  | b :: rest =>
      if b < 0x80 then
        (utf8DecodeChars rest).map (fun cs => Char.ofNat b :: cs)
      else if b < 0xC2 then
        none
      else if b < 0xE0 then
        match rest with
        | b1 :: rest2 =>
            if isCont b1 then
              (utf8DecodeChars rest2).map
                (fun cs => Char.ofNat ((b - 0xC0) * 0x40 + (b1 - 0x80)) :: cs)
            else none
        | [] => none
      else if b < 0xF0 then
        match rest with
        | b1 :: b2 :: rest3 =>
            let cp := (b - 0xE0) * 0x1000 + (b1 - 0x80) * 0x40 + (b2 - 0x80)
            if isCont b1 && isCont b2 && decide (0x800 ≤ cp) &&
                (decide (cp < 0xD800) || decide (0xDFFF < cp)) then
              (utf8DecodeChars rest3).map (fun cs => Char.ofNat cp :: cs)
            else none
        | _ => none
      else if b < 0xF5 then
        match rest with
        | b1 :: b2 :: b3 :: rest4 =>
            let cp := (b - 0xF0) * 0x40000 + (b1 - 0x80) * 0x1000 +
              (b2 - 0x80) * 0x40 + (b3 - 0x80)
            if isCont b1 && isCont b2 && isCont b3 &&
                decide (0x10000 ≤ cp) && decide (cp ≤ 0x10FFFF) then
              (utf8DecodeChars rest4).map (fun cs => Char.ofNat cp :: cs)
            else none
        | _ => none
      else none

/-- Model of `bytes.decode('utf-8')`: `none` models `UnicodeDecodeError`. -/
def utf8Decode (l : List Nat) : Option String :=
  (utf8DecodeChars l).map (fun cs => String.mk cs)

/-- Model of `return records.decode('utf-8')` at the end of `get_s3_object`. -/
def finishFetch (records : List Nat) : FetchResult :=
  match utf8Decode records with
  | some s => .ok s
  | none => .raised (.otherException "UnicodeDecodeError")

/-- The `while repeat:` loop of `get_s3_object`, run against a finite
trace of per-request outcomes.  On `ClientError` with code `NoSuchKey`
the code logs and `continue`s (retries); any other `ClientError` is
re-raised, and a non-`ClientError` exception is not caught at all.  On a
successful response the events are processed; the loop exits only once
an `End` event has set `repeat` to `False`. -/
def fetchLoop : List S3Outcome → List Nat → FetchResult
  | [], _ => .outOfOutcomes
  | S3Outcome.clientError code :: rest, records =>
      if code = "NoSuchKey" then fetchLoop rest records
      else .raised (.clientError code)
  | S3Outcome.otherException name :: _, _ =>
      .raised (.otherException name)
  | S3Outcome.success events :: rest, records =>
      let r := processEvents events true records
      if r.1 then fetchLoop rest r.2 else finishFetch r.2

/-- Model of `get_s3_object(s3_client, bucket, key, input_serialization)`, with the
store's behavior abstracted as the trace of outcomes of the successive
`select_object_content` calls. -/
def get_s3_object (outcomes : List S3Outcome) : FetchResult :=
  fetchLoop outcomes []

/-! ### Enumerations -/

/-- The enumeration `class StorageMode(Enum)` with members `TEST_MODE = 1`, `S3_ES = 2`,
`S3_ES_NO_UNMATCHED = 3`, `S3_ES_NO_RETWEETS = 4`. -/
inductive StorageMode where
  | TEST_MODE
  | S3_ES
  | S3_ES_NO_UNMATCHED
  | S3_ES_NO_RETWEETS
  deriving DecidableEq

/-- Model of `StorageMode[x]`: member lookup by name; `none` models the `KeyError`
raised on an unknown name.  This is the type hook in `converter`. -/
def StorageMode.ofName : String → Option StorageMode
  | "TEST_MODE" => some .TEST_MODE
  | "S3_ES" => some .S3_ES
  | "S3_ES_NO_UNMATCHED" => some .S3_ES_NO_UNMATCHED
  | "S3_ES_NO_RETWEETS" => some .S3_ES_NO_RETWEETS
  | _ => none

/-- The `.name` attribute of a `StorageMode` member. -/
def StorageMode.name : StorageMode → String
  | .TEST_MODE => "TEST_MODE"
  | .S3_ES => "S3_ES"
  | .S3_ES_NO_UNMATCHED => "S3_ES_NO_UNMATCHED"
  | .S3_ES_NO_RETWEETS => "S3_ES_NO_RETWEETS"

/-- The enumeration `class ImageStorageMode(Enum)` with members `ACTIVE = 1`, `INACTIVE = 2`. -/
inductive ImageStorageMode where
  | ACTIVE
  | INACTIVE
  deriving DecidableEq

/-- Model of `ImageStorageMode[x]`: member lookup by name, `none` on `KeyError`. -/
def ImageStorageMode.ofName : String → Option ImageStorageMode
  | "ACTIVE" => some .ACTIVE
  | "INACTIVE" => some .INACTIVE
  | _ => none

/-- The `.name` attribute of an `ImageStorageMode` member. -/
def ImageStorageMode.name : ImageStorageMode → String
  | .ACTIVE => "ACTIVE"
  | .INACTIVE => "INACTIVE"

/-! ### The typed configuration record -/

/-- The frozen dataclass `Conf`. -/
structure Conf where
  keywords : List String
  lang : List String
  locales : List String
  slug : String
  storage_mode : StorageMode
  image_storage_mode : ImageStorageMode
  model_endpoints : Option (List (String × String))
  deriving DecidableEq

/-- A raw per-project record as it sits in the parsed JSON document,
before `dacite.from_dict` decoding: the two enum fields are still
strings.  (Field presence and base types are encoded by the shape;
the fallible part of `dacite` decoding here is the enum name lookup
performed by the `converter` type hooks.) -/
structure RawConf where
  keywords : List String
  lang : List String
  locales : List String
  slug : String
  storage_mode : String
  image_storage_mode : String
  model_endpoints : Option (List (String × String))
  deriving DecidableEq

/-- Model of `dacite.from_dict(data_class=Conf, data=conf, config=dacite.Config(type_hooks=converter))`:
builds a `Conf`, applying the enum-by-name hooks; the `KeyError` a hook
raises on an unknown enum name propagates. -/
def decodeConf (rc : RawConf) : Except PyError Conf :=
  match StorageMode.ofName rc.storage_mode with
  | none => .error (.keyError rc.storage_mode)
  | some sm =>
      match ImageStorageMode.ofName rc.image_storage_mode with
      | none => .error (.keyError rc.image_storage_mode)
      | some im =>
          .ok ⟨rc.keywords, rc.lang, rc.locales, rc.slug, sm, im,
            rc.model_endpoints⟩

/-- The decoding loop of `_load`:
`config = []; for conf in raw: config.append(dacite.from_dict(...))`.
The first record that fails to decode raises, and the partially built
local list is discarded. -/
def decodeAll : List RawConf → Except PyError (List Conf)
  | [] => .ok []
  | rc :: rcs =>
      match decodeConf rc with
      | .error e => .error e
      | .ok c =>
          match decodeAll rcs with
          | .error e => .error e
          | .ok cs => .ok (c :: cs)

/-! ### Python `str`/`int` on the version numbers -/

/-- Decimal digit characters of `n`, most significant first, computed with
explicit fuel (each recursive step divides `n` by ten, so any fuel above
`n` is enough). -/
def natToDigitsAux (fuel n : Nat) : List Char :=
  match fuel with
  | 0 => []
  | fuel + 1 =>
      if n < 10 then [Char.ofNat (48 + n)]
      else natToDigitsAux fuel (n / 10) ++ [Char.ofNat (48 + n % 10)]

/-- Decimal digit characters of `n`, most significant first.
`natToDigits n` is the digit string of `str(n)` for a nonnegative int. -/
def natToDigits (n : Nat) : List Char := natToDigitsAux (n + 1) n

/-- Model of `str(n)` for a natural number `n`. -/
def pyStrNat (n : Nat) : String := String.mk (natToDigits n)

/-- Model of `str(i)` for a Python int `i`. -/
def pyStr (i : Int) : String :=
  if i < 0 then "-" ++ pyStrNat i.natAbs else pyStrNat i.toNat

/-- The decimal digit test used when modelling `int()`. -/
def isDigitChar (c : Char) : Bool := 48 ≤ c.toNat && c.toNat ≤ 57

/-- Value of a string of decimal digits, most significant first. -/
def parseDigits (cs : List Char) : Nat :=
  cs.foldl (fun a c => a * 10 + (c.toNat - 48)) 0

/-- Model of `int(s)`: parses an optional minus sign followed by decimal digits;
anything else raises `ValueError`.  (Python's `int()` also tolerates
surrounding whitespace, a plus sign and digit-group underscores, none of
which occur on this call site: the argument is a version-label key with
every underscore already removed.) -/
def pyInt (s : String) : Except PyError Int :=
  match s.data with
  | [] => .error (.valueError s)
  | c :: cs =>
      if c = '-' then
        if cs ≠ [] ∧ cs.all isDigitChar then .ok (-(parseDigits cs : Int))
        else .error (.valueError s)
      else
        if (c :: cs).all isDigitChar then .ok (parseDigits (c :: cs) : Int)
        else .error (.valueError s)

/-- Model of `key.replace('_', '')`: removes every underscore. -/
def stripUnderscores (s : String) : String :=
  String.mk (s.data.filter (fun c => c ≠ '_'))

/-- Model of `max(list)` on Python ints: `ValueError` on an empty sequence. -/
def pyMax (l : List Int) : Except PyError Int :=
  match l with
  | [] => .error (.valueError "max() arg is an empty sequence")
  | x :: xs => .ok (xs.foldl max x)

/-! ### The configuration manager -/

/-- A parsed JSON document: an insertion-ordered mapping from top-level
keys to arrays of raw records (Python dict with unique keys). -/
def RawDoc := List (String × List RawConf)

/-- Model of `raw[k]` on the parsed document: first entry with key `k`,
`KeyError` when absent. -/
def dictGet (d : RawDoc) (k : String) : Except PyError (List RawConf) :=
  match d.find? (fun kv => kv.1 == k) with
  | some kv => .ok kv.2
  | none => .error (.keyError k)

/-- The list comprehension `[int(key.replace('_', '')) for key in raw]`,
iterating the document keys in insertion order. -/
def parseVersions : RawDoc → Except PyError (List Int)
  | [] => .ok []
  | kv :: kvs =>
      match pyInt (stripUnderscores kv.1) with
      | .error e => .error e
      | .ok v =>
          match parseVersions kvs with
          | .error e => .error e
          | .ok vs => .ok (v :: vs)

/-- Model of `ConfigManager._load`, from the parsed document onward (the fetch of
the raw text and `json.loads` are modelled by taking the parsed document
as input):

    latest_version = max([int(key.replace('_', '')) for key in raw])
    raw = raw['_' + str(latest_version)]
    config = [dacite.from_dict(...) for conf in raw]
-/
def ConfigManager.load (raw : RawDoc) : Except PyError (List Conf) :=
  match parseVersions raw with
  | .error e => .error e
  | .ok versions =>
      match pyMax versions with
      | .error e => .error e
      | .ok latest_version =>
          match dictGet raw ("_" ++ pyStr latest_version) with
          | .error e => .error e
          | .ok arr => decodeAll arr

/-- The dataclass `FilterConf`, with Python `set` fields modelled as
finite sets. -/
structure FilterConf where
  keywords : Finset String
  lang : Finset String

/-- Model of `ConfigManager._pool_config`:

    filter_conf = FilterConf()
    for conf in self.config:
        filter_conf.keywords.update(conf.keywords)
        filter_conf.lang.update(conf.lang)
-/
def pool_config (config : List Conf) : FilterConf :=
  config.foldl
    (fun fc conf =>
      { keywords := fc.keywords ∪ conf.keywords.toFinset,
        lang := fc.lang ∪ conf.lang.toFinset })
    { keywords := ∅, lang := ∅ }

/-- Model of `ConfigManager.get_conf_by_slug`: linear scan, first match returned;
falling off the loop returns `None`. -/
def get_conf_by_slug (config : List Conf) (slug : String) : Option Conf :=
  match config with
  | [] => none
  | conf :: rest =>
      if conf.slug = slug then some conf else get_conf_by_slug rest slug

/-- The dict `{key: getattr(conf, key) for key in ['lang', 'keywords', 'slug']}`
returned by `get_tracking_info`. -/
structure TrackingInfo where
  lang : List String
  keywords : List String
  slug : String
  deriving DecidableEq

/-- Model of `ConfigManager.get_tracking_info`: same scan as `get_conf_by_slug`,
but projecting the three tracking fields of the first match. -/
def get_tracking_info (config : List Conf) (slug : String) : Option TrackingInfo :=
  match config with
  | [] => none
  | conf :: rest =>
      if conf.slug = slug then some ⟨conf.lang, conf.keywords, conf.slug⟩
      else get_tracking_info rest slug

/-! ### `write`: `json.dump([asdict(conf) for conf in self.config], f, indent=4)` -/

/-- The Python value tree `dataclasses.asdict` produces.  `asdict`
recurses into dataclasses, lists and dicts but deep-copies every other
value unchanged — in particular an `Enum` member stays an `Enum` member,
which the default `json` encoder cannot serialize. -/
inductive PyValue where
  | str (s : String)
  | list (items : List PyValue)
  | dict (items : List (String × PyValue))
  | none_
  /-- an `Enum` member left in place by `asdict` -/
  | enumMember (name : String)

mutual

/-- Does the default `json.JSONEncoder` accept this value?  It accepts
strings, lists, dicts and `None`, and raises `TypeError` on anything
else — here, on `Enum` members. -/
def jsonSerializable : PyValue → Bool
  | .str _ => true
  | .none_ => true
  | .enumMember _ => false
  | .list items => jsonSerializableList items
  | .dict items => jsonSerializableKVs items

/-- Value of `jsonSerializable` on every element of a list. -/
def jsonSerializableList : List PyValue → Bool
  | [] => true
  | v :: vs => jsonSerializable v && jsonSerializableList vs

/-- Value of `jsonSerializable` on every value of a dict. -/
def jsonSerializableKVs : List (String × PyValue) → Bool
  | [] => true
  | kv :: kvs => jsonSerializable kv.2 && jsonSerializableKVs kvs

end

/-- Model of `dataclasses.asdict(conf)`: the dataclass becomes a dict in field
declaration order, list fields become lists of strings, the optional
endpoint mapping becomes a dict or `None`, and the two enum members are
deep-copied as enum members. -/
def asdictConf (conf : Conf) : PyValue :=
  .dict
    [("keywords", .list (conf.keywords.map .str)),
     ("lang", .list (conf.lang.map .str)),
     ("locales", .list (conf.locales.map .str)),
     ("slug", .str conf.slug),
     ("storage_mode", .enumMember conf.storage_mode.name),
     ("image_storage_mode", .enumMember conf.image_storage_mode.name),
     ("model_endpoints",
       match conf.model_endpoints with
       | some m => .dict (m.map (fun kv => (kv.1, .str kv.2)))
       | none => .none_)]

/-- Model of `ConfigManager.write(path)`: dumps `[asdict(conf) for conf in self.config]`
with `json.dump`.  The model returns the serializable value tree on
success (the rendering to indented text is not modelled); when the
encoder meets a non-serializable value — the enum members `asdict`
leaves in place — `json.dump` raises `TypeError`. -/
def ConfigManager.write (config : List Conf) : Except PyError (List PyValue) :=
  let payload := config.map asdictConf
  if jsonSerializableList payload then .ok payload
  else .error (.typeError "Object of type Enum is not JSON serializable")

/-! ## Theorems -/

/-! ### Fetcher lemmas -/

/-- A plain data-fragment event carrying `payload` bytes. -/
def dataEvent (payload : List Nat) : SelectEvent := ⟨false, some payload⟩

/-- The end-of-stream marker event. -/
def endEvent : SelectEvent := ⟨true, none⟩

@[simp] theorem dataEvent_records (p : List Nat) : (dataEvent p).records = some p := rfl

@[simp] theorem dataEvent_end (p : List Nat) : (dataEvent p).end_of_stream = false := rfl

@[simp] theorem endEvent_records : endEvent.records = none := rfl

@[simp] theorem endEvent_end : endEvent.end_of_stream = true := rfl

theorem processEvents_fst (evs : List SelectEvent) (rep : Bool) (records : List Nat) :
    (processEvents evs rep records).1 =
      (rep && !evs.any (fun e => e.end_of_stream)) := by
  induction evs generalizing rep records with
  | nil => simp [processEvents]
  | cons e es ih =>
      simp only [processEvents, List.any_cons, ih]
      cases he : e.end_of_stream <;> simp

theorem processEvents_snd (evs : List SelectEvent) (rep : Bool) (records : List Nat) :
    (processEvents evs rep records).2 =
      records ++ (evs.filterMap SelectEvent.records).flatten := by
  induction evs generalizing rep records with
  | nil => simp [processEvents]
  | cons e es ih =>
      cases he : e.records <;>
        simp [processEvents, ih, he, List.filterMap_cons, List.flatten]

theorem filterMap_records_dataEvent (ps : List (List Nat)) :
    List.filterMap (SelectEvent.records ∘ dataEvent) ps = ps := by
  induction ps with
  | nil => rfl
  | cons p ps ih => simp [List.filterMap_cons, Function.comp, ih]

theorem fetchLoop_success_end (ps : List (List Nat)) (rest : List S3Outcome)
    (records : List Nat) :
    fetchLoop (S3Outcome.success (ps.map dataEvent ++ [endEvent]) :: rest) records =
      finishFetch (records ++ ps.flatten) := by
  have hfst : (processEvents (ps.map dataEvent ++ [endEvent]) true records).1 = false := by
    simp [processEvents_fst, endEvent, dataEvent, List.any_append, List.any_map,
      Function.comp]
  have hsnd : (processEvents (ps.map dataEvent ++ [endEvent]) true records).2 =
      records ++ ps.flatten := by
    simp [processEvents_snd, List.filterMap_append, filterMap_records_dataEvent]
  simp [fetchLoop, hfst, hsnd]

theorem fetchLoop_success_noEnd (evs : List SelectEvent) (rest : List S3Outcome)
    (records : List Nat) (h : evs.any (fun e => e.end_of_stream) = false) :
    fetchLoop (S3Outcome.success evs :: rest) records =
      fetchLoop rest (records ++ (evs.filterMap SelectEvent.records).flatten) := by
  simp [fetchLoop, processEvents_fst, processEvents_snd, h]

theorem fetchLoop_nosuchkey (rest : List S3Outcome) (records : List Nat) :
    fetchLoop (S3Outcome.clientError "NoSuchKey" :: rest) records =
      fetchLoop rest records := by
  simp [fetchLoop]

/-! ### C8 -/

/-- C8: for every response event stream consisting of data-fragment events
followed by an end-of-stream marker, `get_s3_object` returns the UTF-8
decoding of the concatenation, in stream order, of the payload bytes of
all data-fragment events. -/
theorem c8_returns_decoded_concatenation (ps : List (List Nat)) (s : String)
    (hdec : utf8Decode ps.flatten = some s) :
    get_s3_object [S3Outcome.success (ps.map dataEvent ++ [endEvent])] = .ok s := by
  rw [get_s3_object, fetchLoop_success_end]
  simp [finishFetch, hdec]

theorem c8_witness :
    utf8Decode ([[104], [105]] : List (List Nat)).flatten = some "hi" ∧
    get_s3_object
        [S3Outcome.success (([[104], [105]] : List (List Nat)).map dataEvent ++
          [endEvent])] = .ok "hi" :=
  ⟨by decide, c8_returns_decoded_concatenation [[104], [105]] "hi" (by decide)⟩

/-! ### C2 -/

/-- C2: a request that raises key-not-found (`ClientError` with code
`NoSuchKey`) exactly twice and then succeeds makes `get_s3_object` return
the successful payload after exactly two retries, while a request failing
with any other error class — a `ClientError` with a different code, or an
exception that is not a `ClientError` — propagates immediately to the
caller without any retry. -/
theorem c2_retries_nosuchkey_only (ps : List (List Nat)) (s : String)
    (code name : String) (rest : List S3Outcome) (records : List Nat)
    (hdec : utf8Decode ps.flatten = some s) (hcode : code ≠ "NoSuchKey") :
    get_s3_object
        [S3Outcome.clientError "NoSuchKey", S3Outcome.clientError "NoSuchKey",
          S3Outcome.success (ps.map dataEvent ++ [endEvent])] = .ok s ∧
    fetchLoop (S3Outcome.clientError code :: rest) records =
      .raised (.clientError code) ∧
    fetchLoop (S3Outcome.otherException name :: rest) records =
      .raised (.otherException name) := by
  refine ⟨?_, ?_, ?_⟩
  · rw [get_s3_object, fetchLoop_nosuchkey, fetchLoop_nosuchkey,
      fetchLoop_success_end]
    simp [finishFetch, hdec]
  · simp [fetchLoop, hcode]
  · simp [fetchLoop]

theorem c2_witness :
    utf8Decode ([[104, 105]] : List (List Nat)).flatten = some "hi" ∧
    ("AccessDenied" : String) ≠ "NoSuchKey" ∧
    (get_s3_object
        [S3Outcome.clientError "NoSuchKey", S3Outcome.clientError "NoSuchKey",
          S3Outcome.success (([[104, 105]] : List (List Nat)).map dataEvent ++
            [endEvent])] = .ok "hi" ∧
      fetchLoop [S3Outcome.clientError "AccessDenied"] [] =
        .raised (.clientError "AccessDenied") ∧
      fetchLoop [S3Outcome.otherException "EndpointConnectionError"] [] =
        .raised (.otherException "EndpointConnectionError")) :=
  ⟨by decide, by decide,
    c2_retries_nosuchkey_only [[104, 105]] "hi" "AccessDenied"
      "EndpointConnectionError" [] [] (by decide) (by decide)⟩

/-! ### C9 -/

/-- C9: the outer loop of `get_s3_object` terminates only on an explicit
`End` event.  A successful response whose event stream has no `End` event
leaves `repeat` true, so the entire request is re-issued and the data
fragments of the next response are appended after the fragments already
accumulated; in particular a trace consisting solely of `End`-free
successful responses drives the loop past the end of the trace. -/
theorem c9_reissues_without_end (evs : List SelectEvent) (rest : List S3Outcome)
    (records : List Nat) (h : evs.any (fun e => e.end_of_stream) = false) :
    fetchLoop (S3Outcome.success evs :: rest) records =
      fetchLoop rest (records ++ (evs.filterMap SelectEvent.records).flatten) ∧
    ∀ oss : List (List SelectEvent),
      (∀ evs2 ∈ oss, evs2.any (fun e => e.end_of_stream) = false) →
      fetchLoop (oss.map S3Outcome.success) records = .outOfOutcomes := by
  refine ⟨fetchLoop_success_noEnd evs rest records h, ?_⟩
  intro oss
  induction oss generalizing records with
  | nil => intro _; simp [fetchLoop]
  | cons evs2 oss ih =>
      intro hall
      rw [List.map_cons, fetchLoop_success_noEnd evs2 _ records
        (hall evs2 (by simp))]
      exact ih _ (fun e he => hall e (by simp [he]))

theorem c9_witness :
    (fetchLoop [S3Outcome.success [dataEvent [1]]] [] =
      fetchLoop []
        ([] ++ (([dataEvent [1]] : List SelectEvent).filterMap
          SelectEvent.records).flatten)) ∧
    fetchLoop (([[dataEvent [1]]] : List (List SelectEvent)).map S3Outcome.success)
        [] = .outOfOutcomes :=
  ⟨(c9_reissues_without_end [dataEvent [1]] [] [] (by decide)).1,
    (c9_reissues_without_end [dataEvent [1]] [] [] (by decide)).2
      [[dataEvent [1]]] (by decide)⟩

/-! ### C6 -/

/-- C6: `get_conf_by_slug` returns the first record in collection order
whose slug equals the argument — in particular the first of several when
duplicate slugs exist — and returns `None` (never raising) when no
record's slug matches. -/
theorem c6_get_conf_by_slug_first_match (pre post : List Conf) (c : Conf)
    (slug slug2 : String) (config : List Conf)
    (hpre : ∀ p ∈ pre, p.slug ≠ slug) (hc : c.slug = slug)
    (habs : ∀ p ∈ config, p.slug ≠ slug2) :
    get_conf_by_slug (pre ++ c :: post) slug = some c ∧
    get_conf_by_slug config slug2 = none := by
  constructor
  · induction pre with
    | nil => simp [get_conf_by_slug, hc]
    | cons p pre ih =>
        rw [List.cons_append, get_conf_by_slug,
          if_neg (hpre p (by simp))]
        exact ih (fun q hq => hpre q (by simp [hq]))
  · induction config with
    | nil => rfl
    | cons p rest ih =>
        rw [get_conf_by_slug, if_neg (habs p (by simp))]
        exact ih (fun q hq => habs q (by simp [hq]))

/-- Two sample records sharing a slug, and one with a different slug. -/
def confA : Conf := ⟨["x"], ["en"], [], "alpha", .TEST_MODE, .INACTIVE, none⟩

/-- First record with slug `"dup"`. -/
def confB : Conf := ⟨["y"], ["fr"], [], "dup", .S3_ES, .ACTIVE, none⟩

/-- Second record with slug `"dup"`. -/
def confC : Conf := ⟨["z"], ["de"], [], "dup", .S3_ES_NO_RETWEETS, .ACTIVE, none⟩

theorem c6_witness :
    get_conf_by_slug ([confA] ++ confB :: [confC]) "dup" = some confB ∧
    get_conf_by_slug [confA, confB, confC] "missing" = none :=
  c6_get_conf_by_slug_first_match [confA] [confC] confB "dup" "missing"
    [confA, confB, confC] (by decide) (by decide) (by decide)

/-! ### C7 -/

/-- C7: `get_tracking_info` returns a record containing exactly the three
fields `lang`, `keywords` and `slug` of the first configuration whose
slug matches (and nothing else: `TrackingInfo` has exactly those three
fields), and `None` when the slug is absent — it is the projection of
`get_conf_by_slug` through those three fields. -/
theorem c7_get_tracking_info_projects_three_fields (config : List Conf)
    (slug : String) :
    get_tracking_info config slug =
      (get_conf_by_slug config slug).map
        (fun c => (⟨c.lang, c.keywords, c.slug⟩ : TrackingInfo)) := by
  induction config with
  | nil => rfl
  | cons conf rest ih =>
      rw [get_tracking_info, get_conf_by_slug]
      split <;> simp [ih]

/-! ### C4 -/

theorem pool_config_foldl_mem (config : List Conf) (fc : FilterConf) (s : String) :
    (s ∈ (List.foldl
        (fun fc conf =>
          { keywords := fc.keywords ∪ conf.keywords.toFinset,
            lang := fc.lang ∪ conf.lang.toFinset : FilterConf }) fc config).keywords ↔
      s ∈ fc.keywords ∨ ∃ c ∈ config, s ∈ c.keywords) ∧
    (s ∈ (List.foldl
        (fun fc conf =>
          { keywords := fc.keywords ∪ conf.keywords.toFinset,
            lang := fc.lang ∪ conf.lang.toFinset : FilterConf }) fc config).lang ↔
      s ∈ fc.lang ∨ ∃ c ∈ config, s ∈ c.lang) := by
  induction config generalizing fc with
  | nil => simp
  | cons conf rest ih =>
      rw [List.foldl_cons]
      constructor
      · rw [(ih _).1]
        simp only [Finset.mem_union, List.mem_toFinset, List.mem_cons]
        constructor
        · rintro ((h | h) | ⟨c, hc, hs⟩)
          · exact Or.inl h
          · exact Or.inr ⟨conf, Or.inl rfl, h⟩
          · exact Or.inr ⟨c, Or.inr hc, hs⟩
        · rintro (h | ⟨c, (rfl | hc), hs⟩)
          · exact Or.inl (Or.inl h)
          · exact Or.inl (Or.inr hs)
          · exact Or.inr ⟨c, hc, hs⟩
      · rw [(ih _).2]
        simp only [Finset.mem_union, List.mem_toFinset, List.mem_cons]
        constructor
        · rintro ((h | h) | ⟨c, hc, hs⟩)
          · exact Or.inl h
          · exact Or.inr ⟨conf, Or.inl rfl, h⟩
          · exact Or.inr ⟨c, Or.inr hc, hs⟩
        · rintro (h | ⟨c, (rfl | hc), hs⟩)
          · exact Or.inl (Or.inl h)
          · exact Or.inl (Or.inr hs)
          · exact Or.inr ⟨c, hc, hs⟩

/-- C4: the pooled filter configuration's keyword set is exactly the set
union of the keywords of all loaded records, and its language set is
exactly the set union of their language codes; set semantics collapses
duplicates across records. -/
theorem c4_pool_config_is_union (config : List Conf) (s : String) :
    (s ∈ (pool_config config).keywords ↔ ∃ c ∈ config, s ∈ c.keywords) ∧
    (s ∈ (pool_config config).lang ↔ ∃ c ∈ config, s ∈ c.lang) := by
  have h := pool_config_foldl_mem config { keywords := ∅, lang := ∅ } s
  rw [pool_config]
  constructor
  · rw [h.1]; simp
  · rw [h.2]; simp

/-! ### C3 -/

theorem strs_serializable (l : List String) :
    jsonSerializableList (l.map PyValue.str) = true := by
  induction l with
  | nil => rfl
  | cons x xs ih => simp [jsonSerializableList, jsonSerializable, ih]

theorem asdict_not_serializable (conf : Conf) :
    jsonSerializable (asdictConf conf) = false := by
  simp [asdictConf, jsonSerializable, jsonSerializableKVs, strs_serializable]

/-- C3 (refuted by the code; see the corresponding claim entry):
`asdict` leaves the two `Enum` members in the produced dicts, and the
default `json` encoder rejects `Enum` members, so `write` raises
`TypeError` for every non-empty collection instead of serializing it
with enum fields rendered as string names.  The claimed round-trip
only ever holds for the empty collection. -/
theorem c3_write_raises_typeerror (config : List Conf) (h : config ≠ []) :
    ConfigManager.write config =
      .error (.typeError "Object of type Enum is not JSON serializable") := by
  match config with
  | conf :: rest =>
      simp [ConfigManager.write, jsonSerializableList, asdict_not_serializable]

/-- The single record of the spec's end-to-end example. -/
def confP1 : Conf := ⟨["a"], ["en"], [], "p1", .S3_ES, .ACTIVE, none⟩

theorem c3_witness :
    ConfigManager.write [confP1] =
      .error (.typeError "Object of type Enum is not JSON serializable") :=
  c3_write_raises_typeerror [confP1] (by decide)

/-! ### C5 -/

/-- Did the modelled computation raise an exception? -/
def raisedError : Except PyError (List Conf) → Bool
  | .error _ => true
  | .ok _ => false

theorem decodeConf_error_of_bad_enum (rc : RawConf)
    (h : StorageMode.ofName rc.storage_mode = none ∨
      ImageStorageMode.ofName rc.image_storage_mode = none) :
    ∃ e, decodeConf rc = .error e := by
  rw [decodeConf]
  rcases h with h | h
  · rw [h]
    exact ⟨_, rfl⟩
  · cases hsm : StorageMode.ofName rc.storage_mode with
    | none => exact ⟨_, rfl⟩
    | some sm => rw [h]; exact ⟨_, rfl⟩

theorem decodeAll_error_of_mem (arr : List RawConf) (rc : RawConf)
    (hmem : rc ∈ arr) (herr : ∃ e, decodeConf rc = .error e) :
    ∃ e, decodeAll arr = .error e := by
  induction arr with
  | nil => cases hmem
  | cons a as ih =>
      rw [decodeAll]
      cases ha : decodeConf a with
      | error e => exact ⟨e, rfl⟩
      | ok c =>
          rcases List.mem_cons.mp hmem with rfl | hmem2
          · obtain ⟨e, he⟩ := herr
            rw [ha] at he
            cases he
          · obtain ⟨e, he⟩ := ih hmem2
            rw [he]
            exact ⟨e, rfl⟩

theorem decodeAll_ok_all_decode (arr : List RawConf) (cfg : List Conf)
    (hok : decodeAll arr = .ok cfg) (rc : RawConf) (hmem : rc ∈ arr) :
    ∃ c, decodeConf rc = .ok c := by
  induction arr generalizing cfg with
  | nil => cases hmem
  | cons a as ih =>
      rw [decodeAll] at hok
      cases ha : decodeConf a with
      | error e => rw [ha] at hok; cases hok
      | ok c =>
          rw [ha] at hok
          cases has : decodeAll as with
          | error e => rw [has] at hok; cases hok
          | ok cs =>
              rcases List.mem_cons.mp hmem with rfl | hmem2
              · exact ⟨c, ha⟩
              · exact ih cs has hmem2

/-- Evaluation of `_load` on a single-version document reduces to decoding its array. -/
theorem load_single_v1 (arr : List RawConf) :
    ConfigManager.load [("_1", arr)] = decodeAll arr := rfl

/-- C5: a version array containing a record whose `storage_mode` (or
`image_storage_mode`) string matches no enum variant name makes `load`
fail — the `KeyError` of the enum name lookup, the code's
malformed-configuration failure — and the collection is never partially
populated: whenever decoding succeeds, every single record decoded. -/
theorem c5_bad_enum_aborts_load (arr : List RawConf)
    (h : ∃ rc ∈ arr, StorageMode.ofName rc.storage_mode = none ∨
      ImageStorageMode.ofName rc.image_storage_mode = none) :
    raisedError (ConfigManager.load [("_1", arr)]) = true ∧
    (∀ (arr2 : List RawConf) (cfg : List Conf), decodeAll arr2 = .ok cfg →
      ∀ rc ∈ arr2, ∃ c, decodeConf rc = .ok c) := by
  obtain ⟨rc, hmem, hbad⟩ := h
  constructor
  · rw [load_single_v1]
    obtain ⟨e, he⟩ :=
      decodeAll_error_of_mem arr rc hmem (decodeConf_error_of_bad_enum rc hbad)
    rw [he]
    rfl
  · exact fun arr2 cfg hok rc2 hm2 => decodeAll_ok_all_decode arr2 cfg hok rc2 hm2

/-- A raw record whose `storage_mode` matches no `StorageMode` name. -/
def rawBad : RawConf := ⟨["a"], ["en"], [], "p1", "BOGUS", "ACTIVE", none⟩

theorem c5_witness :
    raisedError (ConfigManager.load [("_1", [rawBad])]) = true :=
  (c5_bad_enum_aborts_load [rawBad] (by decide)).1

/-! ### C10 -/

/-- A raw record that decodes fine, so the failures below come from the
version-key lookup alone. -/
def rawGood : RawConf := ⟨["a"], ["en"], [], "p1", "S3_ES", "ACTIVE", none⟩

/-- C10: `_load` rebuilds the lookup key as `'_' + str(max(...))` from the
integers obtained by deleting every underscore from each key, so a
document whose maximal key is not in this canonical form — `_01`, whose
stripped form parses to `1`, or `_1_0`, whose stripped form parses to
`10` — makes the lookup raise `KeyError` for the reconstructed canonical
key instead of loading that version's array. -/
theorem c10_noncanonical_labels_raise_keyerror :
    ConfigManager.load [("_01", [rawGood])] = .error (.keyError "_1") ∧
    ConfigManager.load [("_1_0", [rawGood])] = .error (.keyError "_10") := by
  decide

/-! ### C1: decimal print/parse round trip -/

theorem char_toNat_ofNat_lt {m : Nat} (h : m < 55296) :
    (Char.ofNat m).toNat = m := by
  have hv : m.isValidChar := Or.inl h
  rw [Char.ofNat, dif_pos hv]
  rfl

theorem natToDigitsAux_digits (fuel : Nat) :
    ∀ n, n < fuel → ∀ c ∈ natToDigitsAux fuel n, isDigitChar c = true := by
  induction fuel with
  | zero => intro n hn; omega
  | succ fuel ih =>
      intro n hn c hc
      rw [natToDigitsAux] at hc
      by_cases h10 : n < 10
      · rw [if_pos h10] at hc
        simp only [List.mem_singleton] at hc
        subst hc
        simp [isDigitChar, char_toNat_ofNat_lt (show 48 + n < 55296 by omega)]
        omega
      · rw [if_neg h10] at hc
        rcases List.mem_append.mp hc with hc | hc
        · have hdiv : n / 10 < n := Nat.div_lt_self (by omega) (by omega)
          exact ih (n / 10) (by omega) c hc
        · simp only [List.mem_singleton] at hc
          subst hc
          have hm : n % 10 < 10 := Nat.mod_lt n (by omega)
          simp [isDigitChar, char_toNat_ofNat_lt (show 48 + n % 10 < 55296 by omega)]
          omega

theorem natToDigitsAux_ne_nil (fuel n : Nat) (h : n < fuel) :
    natToDigitsAux fuel n ≠ [] := by
  cases fuel with
  | zero => omega
  | succ fuel =>
      rw [natToDigitsAux]
      by_cases h10 : n < 10
      · rw [if_pos h10]; simp
      · rw [if_neg h10]; simp

theorem parseDigits_append (ds : List Char) (c : Char) :
    parseDigits (ds ++ [c]) = parseDigits ds * 10 + (c.toNat - 48) := by
  simp [parseDigits, List.foldl_append]

theorem parseDigits_natToDigitsAux (fuel : Nat) :
    ∀ n, n < fuel → parseDigits (natToDigitsAux fuel n) = n := by
  induction fuel with
  | zero => intro n hn; omega
  | succ fuel ih =>
      intro n hn
      rw [natToDigitsAux]
      by_cases h10 : n < 10
      · rw [if_pos h10]
        simp [parseDigits, char_toNat_ofNat_lt (show 48 + n < 55296 by omega)]
      · rw [if_neg h10, parseDigits_append]
        have hdiv : n / 10 < n := Nat.div_lt_self (by omega) (by omega)
        rw [ih (n / 10) (by omega),
          char_toNat_ofNat_lt (show 48 + n % 10 < 55296 by
            have := Nat.mod_lt n (show 0 < 10 by omega); omega)]
        omega

theorem natToDigits_digits (n : Nat) :
    ∀ c ∈ natToDigits n, isDigitChar c = true :=
  natToDigitsAux_digits (n + 1) n (by omega)

theorem natToDigits_ne_nil (n : Nat) : natToDigits n ≠ [] :=
  natToDigitsAux_ne_nil (n + 1) n (by omega)

theorem parseDigits_natToDigits (n : Nat) : parseDigits (natToDigits n) = n :=
  parseDigits_natToDigitsAux (n + 1) n (by omega)

/-- Evaluation of `int(s)` on a nonempty all-digit string returns its decimal value. -/
theorem pyInt_digits (s : String) (h1 : s.data ≠ [])
    (h2 : ∀ c ∈ s.data, isDigitChar c = true) :
    pyInt s = .ok (parseDigits s.data) := by
  rw [pyInt]
  cases hd : s.data with
  | nil => exact absurd hd h1
  | cons c cs =>
      have hcd : isDigitChar c = true := h2 c (by rw [hd]; simp)
      have hcne : ¬ c = '-' := by
        intro hc
        rw [hc] at hcd
        exact absurd hcd (by decide)
      have hall : (c :: cs).all isDigitChar = true := by
        rw [← hd]
        exact List.all_eq_true.mpr (by intro x hx; exact h2 x hx)
      simp [hcne, hall]

theorem pyInt_pyStrNat (n : Nat) : pyInt (pyStrNat n) = .ok (n : Int) := by
  have h := pyInt_digits (pyStrNat n) (natToDigits_ne_nil n) (natToDigits_digits n)
  rw [h]
  rw [show (pyStrNat n).data = natToDigits n from rfl, parseDigits_natToDigits]

theorem pyStrNat_injective {a b : Nat} (h : pyStrNat a = pyStrNat b) : a = b := by
  have ha := pyInt_pyStrNat a
  rw [h, pyInt_pyStrNat b] at ha
  have hb := Except.ok.inj ha
  exact_mod_cast hb.symm

/-! ### C1: version labels -/

/-- The canonical label `_<n>` of version `n`, as it appears in a valid
stored document. -/
def versionLabel (n : Nat) : String := "_" ++ pyStrNat n

theorem stripUnderscores_versionLabel (n : Nat) :
    stripUnderscores (versionLabel n) = pyStrNat n := by
  have hdata : (versionLabel n).data = '_' :: natToDigits n := by
    rw [versionLabel, String.data_append]
    rfl
  rw [stripUnderscores, hdata]
  simp only [List.filter_cons]
  rw [if_neg (by decide)]
  have : (natToDigits n).filter (fun c => c ≠ '_') = natToDigits n := by
    apply List.filter_eq_self.mpr
    intro c hc
    have hd := natToDigits_digits n c hc
    simp only [isDigitChar] at hd
    simp only [decide_eq_true_eq]
    intro hch
    rw [hch] at hd
    exact absurd hd (by decide)
  rw [this]
  rfl

theorem versionLabel_injective {a b : Nat} (h : versionLabel a = versionLabel b) :
    a = b := by
  apply pyStrNat_injective
  have ha := congrArg String.data h
  rw [versionLabel, versionLabel, String.data_append, String.data_append] at ha
  have hdata : (pyStrNat a).data = (pyStrNat b).data := by
    simpa using ha
  exact congrArg String.mk hdata

theorem foldl_max_eq {xs : List Int} {a n : Int} (han : a ≤ n)
    (hn : n = a ∨ n ∈ xs) (hub : ∀ y ∈ xs, y ≤ n) :
    xs.foldl max a = n := by
  induction xs generalizing a with
  | nil =>
      rcases hn with rfl | h
      · rfl
      · cases h
  | cons x xs ih =>
      rw [List.foldl_cons]
      have hx : x ≤ n := hub x (by simp)
      apply ih (max_le han hx) ?_ (fun y hy => hub y (by simp [hy]))
      rcases hn with rfl | h
      · exact Or.inl (max_eq_left hx).symm
      · rcases List.mem_cons.mp h with rfl | h2
        · exact Or.inl (max_eq_right han).symm
        · exact Or.inr h2

theorem pyMax_eq {l : List Int} {n : Int} (hmem : n ∈ l)
    (hub : ∀ y ∈ l, y ≤ n) : pyMax l = .ok n := by
  cases l with
  | nil => cases hmem
  | cons x xs =>
      rw [pyMax]
      congr 1
      apply foldl_max_eq (hub x (by simp)) ?_ (fun y hy => hub y (by simp [hy]))
      rcases List.mem_cons.mp hmem with rfl | h
      · exact Or.inl rfl
      · exact Or.inr h

theorem parseVersions_labels (entries : List (Nat × List RawConf)) :
    parseVersions (entries.map (fun e => (versionLabel e.1, e.2))) =
      .ok (entries.map (fun e => (e.1 : Int))) := by
  induction entries with
  | nil => rfl
  | cons e es ih =>
      rw [List.map_cons, parseVersions, stripUnderscores_versionLabel,
        pyInt_pyStrNat, ih]
      rfl

theorem dictGet_labels (entries : List (Nat × List RawConf)) (n : Nat)
    (arr : List RawConf) (hmem : (n, arr) ∈ entries)
    (hnd : (entries.map Prod.fst).Nodup) :
    dictGet (entries.map (fun e => (versionLabel e.1, e.2))) (versionLabel n) =
      .ok arr := by
  induction entries with
  | nil => cases hmem
  | cons e es ih =>
      rw [List.map_cons]
      by_cases he : versionLabel e.1 = versionLabel n
      · have hfst : e.1 = n := versionLabel_injective he
        rcases List.mem_cons.mp hmem with heq | hmem2
        · rw [dictGet, List.find?_cons_of_pos _ (by simpa using he)]
          rw [← heq]
        · exfalso
          have hin : n ∈ es.map Prod.fst := by
            exact List.mem_map_of_mem Prod.fst hmem2
          rw [List.map_cons, List.nodup_cons] at hnd
          exact hnd.1 (hfst ▸ hin)
      · have hne : (n, arr) ≠ e := by
          intro heq
          apply he
          rw [← heq]
        have hmem2 : (n, arr) ∈ es := by
          rcases List.mem_cons.mp hmem with heq | h
          · exact absurd heq hne
          · exact h
        have hnd2 : (es.map Prod.fst).Nodup := by
          rw [List.map_cons, List.nodup_cons] at hnd
          exact hnd.2
        rw [dictGet, List.find?_cons_of_neg _ (by simpa using he)]
        rw [← dictGet, ih hmem2 hnd2]

theorem pyStr_ofNat (n : Nat) : pyStr (n : Int) = pyStrNat n := by
  rw [pyStr, if_neg (by omega)]
  rfl

/-! ### C1 -/

/-- C1: for every valid stored document — top-level keys are canonical
version labels `_k`, pairwise distinct — `load` decodes exactly the array
under the label with the numerically largest suffix into the resulting
collection, and records under every other label do not appear: the
result is precisely `decodeAll` of the maximal version's array. -/
theorem c1_load_selects_largest_version
    (entries : List (Nat × List RawConf)) (n : Nat) (arr : List RawConf)
    (hmem : (n, arr) ∈ entries)
    (hmax : ∀ e ∈ entries, e.1 ≤ n)
    (hnd : (entries.map Prod.fst).Nodup) :
    ConfigManager.load (entries.map (fun e => (versionLabel e.1, e.2))) =
      decodeAll arr := by
  have hmaxv : pyMax (entries.map (fun e => (e.1 : Int))) = .ok (n : Int) := by
    apply pyMax_eq
    · have := List.mem_map_of_mem (fun e : Nat × List RawConf => (e.1 : Int)) hmem
      exact this
    · intro y hy
      obtain ⟨e, he, rfl⟩ := List.mem_map.mp hy
      exact_mod_cast hmax e he
  have hkey : ("_" ++ pyStr (n : Int)) = versionLabel n := by
    rw [pyStr_ofNat]
    rfl
  simp only [ConfigManager.load, parseVersions_labels, hmaxv, hkey,
    dictGet_labels entries n arr hmem hnd]

theorem c1_witness :
    ConfigManager.load
        (([(1, [rawGood]), (3, [rawGood, rawGood]), (2, [])] :
            List (Nat × List RawConf)).map
          (fun e => (versionLabel e.1, e.2))) =
      decodeAll [rawGood, rawGood] :=
  c1_load_selects_largest_version
    [(1, [rawGood]), (3, [rawGood, rawGood]), (2, [])] 3 [rawGood, rawGood]
    (by decide) (by decide) (by decide)

end Streamer
